import Mathlib

/-!
# Verification of the wikr cache-backed fetch pipeline

A shallow embedding of `wikr.go` (package `main`): the on-disk TTL cache
(`loadCache` / `saveCache` / `getCachedEntry` / `setCachedEntry`), the remote
response parsing of `searchWikipedia` / `getWikipediaSummary`, the summary
truncation rule, the interactive disambiguation loop `chooseResult`, the
orchestration in `main`, and the progress-indicator handoff
(`showLoadingAnimation` with the `done` channel and `sync.WaitGroup`).

Modelling conventions:
* Go strings are modelled as Lean `String`s; where Go's byte-oriented
  `len`/slicing matters (summary truncation) the string is modelled as the
  list of its length units (`List Char`, one element per Go byte).
* `time.Time` / `time.Duration` are modelled as `Int` nanoseconds; `time.Since`
  is `now - timestamp`.
* The cache file's bytes are modelled at the JSON level: `FileContent` is
  either a read error, syntactically invalid JSON, or a parsed JSON value.
* Go's `encoding/json.Unmarshal` into `map[string]CacheEntry` is modelled with
  its documented behaviour: syntactically invalid input leaves the map
  untouched; on a type mismatch the offending value is skipped and decoding
  continues best-effort, so a wrongly-shaped entry value yields a zero-valued
  `CacheEntry` under its key.
* A failed Go type assertion (`x.(T)`) is a panic, modelled as a distinct
  `Parsed.panicked` outcome, different from a returned `error`
  (`Parsed.errReturned`).
-/

namespace Wikr

/-- A JSON value (the shape layer of the cache file and API responses).
Objects keep their fields as an ordered association list, as parsed. -/
inductive Json where
  | null : Json
  | jbool : Bool → Json
  | num : Int → Json
  | str : String → Json
  | arr : List Json → Json
  | obj : List (String × Json) → Json

/-- Field access on a decoded JSON object, as a Go map produced by
`json.Unmarshal` would resolve it: with duplicate keys the last wins. -/
def objGet : List (String × Json) → String → Option Json
  | [], _ => none
  | (k', v) :: rest, k =>
    match objGet rest k with
    | some w => some w
    | none => if k' = k then some v else none

/-- `CacheEntry` from wikr.go: `{Summary, URL, Timestamp}` with JSON tags
`summary`, `url`, `timestamp`. The timestamp is in nanoseconds. -/
structure CacheEntry where
  summary : String
  url : String
  timestamp : Int
deriving DecidableEq, Repr

/-- The in-memory `Cache` (Go: `map[string]CacheEntry`), modelled as an
association list; observations go through `cacheFind`. -/
abbrev Cache := List (String × CacheEntry)

/-- Map lookup (first matching key; inserts keep keys unique). -/
def cacheFind (k : String) : Cache → Option CacheEntry
  | [] => none
  | (k', e) :: rest => if k' = k then some e else cacheFind k rest

/-- Map insert/overwrite (Go: `cache[key] = entry`). -/
def cacheInsert (k : String) (e : CacheEntry) (c : Cache) : Cache :=
  (k, e) :: c.filter (fun p => p.1 != k)

/-- The keys of the table are pairwise distinct (true of every Go map). -/
def KeysNodup (c : Cache) : Prop := (c.map Prod.fst).Nodup

/-- Cache key construction from `getCachedEntry` / `setCachedEntry`
(wikr.go line 81 / 99): `key := lang + ":" + title`. -/
def cacheKey (lang title : String) : String := lang ++ ":" ++ title

/-- `cacheDuration = 24 * time.Hour`, in nanoseconds. -/
def cacheDuration : Int := 24 * 60 * 60 * 1000000000

/-! ## Serialization (`json.Marshal` / `json.Unmarshal` of a `Cache`) -/

/-- JSON encoding of one `CacheEntry` (Go struct tags `summary`, `url`,
`timestamp`). -/
def encodeEntry (e : CacheEntry) : Json :=
  .obj [("summary", .str e.summary), ("url", .str e.url),
        ("timestamp", .num e.timestamp)]

/-- One step of Go's best-effort struct decoding: a field whose name and type
match is stored, anything else is skipped. -/
def decodeEntryField (e : CacheEntry) (kv : String × Json) : CacheEntry :=
  if kv.1 = "summary" then
    match kv.2 with
    | .str s => { e with summary := s }
    | _ => e
  else if kv.1 = "url" then
    match kv.2 with
    | .str u => { e with url := u }
    | _ => e
  else if kv.1 = "timestamp" then
    match kv.2 with
    | .num t => { e with timestamp := t }
    | _ => e
  else e

/-- Decoding a JSON value into a `CacheEntry`, Go-style: a non-object (type
mismatch) is skipped, leaving the zero value; object fields are applied
best-effort. -/
def decodeEntry : Json → CacheEntry
  | .obj fields => fields.foldl decodeEntryField ⟨"", "", 0⟩
  | _ => ⟨"", "", 0⟩

/-- `json.Marshal cache`: the persisted JSON object. -/
def marshalCache (c : Cache) : Json :=
  .obj (c.map fun p => (p.1, encodeEntry p.2))

/-- `json.Unmarshal` into `map[string]CacheEntry`: a non-object top level is a
type error that leaves the map untouched (empty); an object populates the map
entry by entry, decoding each value best-effort. -/
def unmarshalCache : Json → Cache
  | .obj fields => fields.foldl (fun acc kv => cacheInsert kv.1 (decodeEntry kv.2) acc) []
  | _ => []

/-- The cache file's contents as seen by `loadCache`. -/
inductive FileContent where
  | readError : FileContent
  | invalid : FileContent
  | valid : Json → FileContent

/-- `loadCache` (wikr.go lines 48–64): on a read error the empty map is
returned; on an `Unmarshal` error the error is ignored and whatever the
decoder populated is returned (nothing for syntactically invalid input,
best-effort contents for valid JSON). -/
def loadCache : FileContent → Cache
  | .readError => []
  | .invalid => []
  | .valid j => unmarshalCache j

/-- `saveCache` (wikr.go lines 66–77): marshals the whole table and overwrites
the file. -/
def saveCache (c : Cache) : FileContent := .valid (marshalCache c)

/-! ## Cache policy (`getCachedEntry` / `setCachedEntry`) -/

/-- `getCachedEntry` (wikr.go lines 79–95), with the file state passed
explicitly and returned alongside the result: the function loads the cache
and performs no write, so the file state passes through unchanged. Returns
`(summary, url, found)`; `found` is true only for a fresh entry
(`time.Since(entry.Timestamp) < cacheDuration`). -/
def getCachedEntry (disk : FileContent) (lang title : String) (now : Int) :
    (String × String × Bool) × FileContent :=
  let cache := loadCache disk
  match cacheFind (cacheKey lang title) cache with
  | some e =>
    if now - e.timestamp < cacheDuration then ((e.summary, e.url, true), disk)
    else (("", "", false), disk)
  | none => (("", "", false), disk)

/-- `setCachedEntry` (wikr.go lines 97–109): load, overwrite the key with a
fresh timestamp, save the whole table. -/
def setCachedEntry (disk : FileContent) (lang title summary url : String)
    (now : Int) : FileContent :=
  saveCache (cacheInsert (cacheKey lang title) ⟨summary, url, now⟩ (loadCache disk))

/-! ## Basic map lemmas -/

theorem cacheFind_eq_none_of_not_mem (k : String) :
    ∀ c : Cache, k ∉ c.map Prod.fst → cacheFind k c = none := by
  intro c
  induction c with
  | nil => intro _; rfl
  | cons p rest ih =>
    intro h
    obtain ⟨k', e⟩ := p
    simp only [List.map_cons, List.mem_cons] at h
    push_neg at h
    simp only [cacheFind, if_neg (Ne.symm h.1), ih h.2]

theorem cacheFind_filter_ne (k k' : String) (hne : k' ≠ k) :
    ∀ c : Cache, cacheFind k (c.filter (fun p => p.1 != k')) = cacheFind k c := by
  intro c
  induction c with
  | nil => rfl
  | cons p rest ih =>
    obtain ⟨k0, e⟩ := p
    by_cases h0 : k0 = k'
    · subst h0
      simp [List.filter_cons, ih, cacheFind, hne]
    · have : ((k0, e).1 != k') = true := by simpa using h0
      simp only [List.filter_cons, this, cond_true, cacheFind, ih]

theorem cacheFind_insert_self (k : String) (e : CacheEntry) (c : Cache) :
    cacheFind k (cacheInsert k e c) = some e := by
  simp [cacheInsert, cacheFind]

theorem cacheFind_insert_ne (k k' : String) (hne : k' ≠ k) (e : CacheEntry)
    (c : Cache) : cacheFind k (cacheInsert k' e c) = cacheFind k c := by
  simp only [cacheInsert, cacheFind, if_neg hne]
  exact cacheFind_filter_ne k k' hne c

theorem keysNodup_insert (k : String) (e : CacheEntry) (c : Cache) :
    KeysNodup c → KeysNodup (cacheInsert k e c) := by
  intro h
  unfold KeysNodup cacheInsert
  simp only [List.map_cons, List.nodup_cons]
  constructor
  · intro hmem
    obtain ⟨p, hp, hpk⟩ := List.mem_map.mp hmem
    have := List.of_mem_filter hp
    rw [hpk] at this
    simp at this
  · exact List.Nodup.sublist (List.Sublist.map _ (List.filter_sublist c)) h

theorem keysNodup_unmarshal (j : Json) : KeysNodup (unmarshalCache j) := by
  cases j with
  | obj fields =>
    show KeysNodup (fields.foldl (fun acc kv => cacheInsert kv.1 (decodeEntry kv.2) acc) [])
    have : ∀ (l : List (String × Json)) (acc : Cache), KeysNodup acc →
        KeysNodup (l.foldl (fun acc kv => cacheInsert kv.1 (decodeEntry kv.2) acc) acc) := by
      intro l
      induction l with
      | nil => intro acc h; exact h
      | cons kv rest ih =>
        intro acc h
        exact ih _ (keysNodup_insert _ _ _ h)
    exact this fields [] (by simp [KeysNodup])
  | null => simp [unmarshalCache, KeysNodup]
  | jbool b => simp [unmarshalCache, KeysNodup]
  | num n => simp [unmarshalCache, KeysNodup]
  | str s => simp [unmarshalCache, KeysNodup]
  | arr a => simp [unmarshalCache, KeysNodup]

theorem keysNodup_loadCache (disk : FileContent) : KeysNodup (loadCache disk) := by
  cases disk with
  | readError => simp [loadCache, KeysNodup]
  | invalid => simp [loadCache, KeysNodup]
  | valid j => exact keysNodup_unmarshal j

theorem decodeEntry_encodeEntry (e : CacheEntry) : decodeEntry (encodeEntry e) = e := by
  cases e
  rfl

/-! ## The save/load round trip -/

theorem cacheFind_foldl_insert (k : String) :
    ∀ (c : Cache) (acc : Cache), KeysNodup c →
      cacheFind k
        ((c.map fun p => (p.1, encodeEntry p.2)).foldl
          (fun acc kv => cacheInsert kv.1 (decodeEntry kv.2) acc) acc)
      = match cacheFind k c with
        | some e => some e
        | none => cacheFind k acc := by
  intro c
  induction c with
  | nil => intro acc _; rfl
  | cons p rest ih =>
    intro acc hnd
    obtain ⟨k0, e0⟩ := p
    have hnd' : KeysNodup rest := by
      have := hnd
      unfold KeysNodup at this ⊢
      simp only [List.map_cons, List.nodup_cons] at this
      exact this.2
    have hk0 : k0 ∉ rest.map Prod.fst := by
      have := hnd
      unfold KeysNodup at this
      simp only [List.map_cons, List.nodup_cons] at this
      exact this.1
    simp only [List.map_cons, List.foldl_cons, decodeEntry_encodeEntry]
    rw [ih (cacheInsert k0 e0 acc) hnd']
    by_cases hk : k0 = k
    · subst hk
      rw [cacheFind_eq_none_of_not_mem k0 rest hk0]
      have h1 : cacheFind k0 ((k0, e0) :: rest) = some e0 := by simp [cacheFind]
      rw [h1]
      simp [cacheFind_insert_self]
    · have h1 : cacheFind k ((k0, e0) :: rest) = cacheFind k rest := by
        simp [cacheFind, hk]
      rw [h1]
      cases hfind : cacheFind k rest with
      | some e => simp
      | none => simpa using cacheFind_insert_ne k k0 hk e0 acc

theorem cacheFind_roundtrip (c : Cache) (h : KeysNodup c) (k : String) :
    cacheFind k (unmarshalCache (marshalCache c)) = cacheFind k c := by
  show cacheFind k
      ((c.map fun p => (p.1, encodeEntry p.2)).foldl
        (fun acc kv => cacheInsert kv.1 (decodeEntry kv.2) acc) []) = cacheFind k c
  rw [cacheFind_foldl_insert k c [] h]
  cases hfind : cacheFind k c with
  | some e => rfl
  | none => rfl

theorem cacheFind_after_set (disk : FileContent) (lang title s u : String)
    (now : Int) :
    cacheFind (cacheKey lang title)
      (loadCache (setCachedEntry disk lang title s u now)) = some ⟨s, u, now⟩ :=
  calc cacheFind (cacheKey lang title)
        (loadCache (setCachedEntry disk lang title s u now))
      = cacheFind (cacheKey lang title)
          (cacheInsert (cacheKey lang title) ⟨s, u, now⟩ (loadCache disk)) :=
        cacheFind_roundtrip _ (keysNodup_insert _ _ _ (keysNodup_loadCache disk)) _
    _ = some ⟨s, u, now⟩ := cacheFind_insert_self _ _ _

/-! ## Claim C6 -/

/-- C6: for every cache table (with its keys distinct, as they are in any Go
map), `save` followed by `load` yields a table containing exactly the same
keys, and for every key an entry with the same `summary`, `sourceURL` and
`fetchedAt`: lookup of every key in the reloaded table agrees exactly with the
original, which determines both the key set and every entry's fields. -/
theorem save_load_roundtrip (c : Cache) (h : KeysNodup c) (k : String) :
    cacheFind k (loadCache (saveCache c)) = cacheFind k c :=
  cacheFind_roundtrip c h k

theorem save_load_roundtrip_witness :
    KeysNodup [("de:Test", CacheEntry.mk "a summary" "https://u" 5)] ∧
    cacheFind "de:Test"
        (loadCache (saveCache [("de:Test", CacheEntry.mk "a summary" "https://u" 5)]))
      = cacheFind "de:Test" [("de:Test", CacheEntry.mk "a summary" "https://u" 5)] :=
  ⟨by simp [KeysNodup],
   save_load_roundtrip [("de:Test", CacheEntry.mk "a summary" "https://u" 5)]
     (by simp [KeysNodup]) "de:Test"⟩

/-! ## Claim C7 -/

/-- C7 counterexample: a malformed cache file whose JSON is syntactically valid
but contains a wrongly-shaped entry (`"bad": 5`) does NOT load as the empty
table: the decoder keeps going best-effort, the well-formed entry survives and
the wrongly-shaped one becomes a zero-valued entry, so the loaded table is
non-empty — refuting "for every malformed cache-file content, load returns an
empty cache table". -/
theorem loadCache_malformed_not_empty :
    loadCache (.valid (Json.obj
        [("good", Json.obj [("summary", .str "s"), ("url", .str "u"),
                            ("timestamp", .num 7)]),
         ("bad", Json.num 5)])) ≠ ([] : Cache) ∧
    cacheFind "good" (loadCache (.valid (Json.obj
        [("good", Json.obj [("summary", .str "s"), ("url", .str "u"),
                            ("timestamp", .num 7)]),
         ("bad", Json.num 5)]))) = some ⟨"s", "u", 7⟩ ∧
    cacheFind "bad" (loadCache (.valid (Json.obj
        [("good", Json.obj [("summary", .str "s"), ("url", .str "u"),
                            ("timestamp", .num 7)]),
         ("bad", Json.num 5)]))) = some ⟨"", "", 0⟩ := by
  refine ⟨?_, rfl, rfl⟩
  decide

/-- C7 (amended): on a read error, and on syntactically invalid (non-JSON)
content, `loadCache` returns the empty table; it never propagates an error
(it is total, returning a `Cache` on every input). Wrongly-shaped entries
inside syntactically valid JSON are instead decoded best-effort. -/
theorem loadCache_fails_soft :
    loadCache .readError = ([] : Cache) ∧ loadCache .invalid = ([] : Cache) :=
  ⟨rfl, rfl⟩

/-! ## Claim C3 -/

/-- C3: for a cached entry present under the looked-up key, `getCachedEntry`
reports it absent exactly when `now - fetchedAt ≥ 24h`; the lookup passes the
persisted file through unchanged (it never writes), and the entry stays in the
persisted table until a `setCachedEntry` for the same key overwrites it. -/
theorem lookup_ttl_expiry (disk : FileContent) (lang title : String) (now : Int)
    (e : CacheEntry)
    (h : cacheFind (cacheKey lang title) (loadCache disk) = some e) :
    ((getCachedEntry disk lang title now).1.2.2 = false ↔
      cacheDuration ≤ now - e.timestamp)
    ∧ (getCachedEntry disk lang title now).2 = disk
    ∧ (∀ s u now', cacheFind (cacheKey lang title)
        (loadCache (setCachedEntry disk lang title s u now')) = some ⟨s, u, now'⟩) := by
  refine ⟨?_, ?_, fun s u now' => cacheFind_after_set disk lang title s u now'⟩
  · simp only [getCachedEntry, h]
    by_cases hf : now - e.timestamp < cacheDuration
    · simp only [if_pos hf]
      constructor
      · intro hcontra
        simp at hcontra
      · intro hge
        exact absurd hge (by omega)
    · simp only [if_neg hf]
      constructor
      · intro _
        omega
      · intro _
        trivial
  · simp only [getCachedEntry, h]
    by_cases hf : now - e.timestamp < cacheDuration <;> simp [hf]

theorem lookup_ttl_expiry_witness :
    cacheFind (cacheKey "de" "Berlin")
        (loadCache (saveCache [(cacheKey "de" "Berlin", CacheEntry.mk "s" "u" 0)]))
      = some (CacheEntry.mk "s" "u" 0) ∧
    ((getCachedEntry (saveCache [(cacheKey "de" "Berlin", CacheEntry.mk "s" "u" 0)])
        "de" "Berlin" cacheDuration).1.2.2 = false ↔
      cacheDuration ≤ cacheDuration - (0 : Int)) :=
  ⟨by decide,
   (lookup_ttl_expiry (saveCache [(cacheKey "de" "Berlin", CacheEntry.mk "s" "u" 0)])
      "de" "Berlin" cacheDuration (CacheEntry.mk "s" "u" 0) (by decide)).1⟩

/-! ## Claim C5 -/

/-- C5: a `setCachedEntry` immediately followed by a `getCachedEntry` for the
same `(language, title)` pair within the TTL window returns the stored
`summary` and `sourceURL` with the served-from-cache flag true. -/
theorem store_then_lookup (disk : FileContent) (lang title s u : String)
    (now now' : Int) (h : now' - now < cacheDuration) :
    (getCachedEntry (setCachedEntry disk lang title s u now) lang title now').1
      = (s, u, true) := by
  simp only [getCachedEntry, cacheFind_after_set, if_pos h]

theorem store_then_lookup_witness :
    ((1 : Int) - 0 < cacheDuration) ∧
    (getCachedEntry (setCachedEntry .readError "de" "Berlin" "sum" "url" 0)
        "de" "Berlin" 1).1 = ("sum", "url", true) :=
  ⟨by decide,
   store_then_lookup .readError "de" "Berlin" "sum" "url" 0 1 (by decide)⟩

/-! ## Claim C2 -/

/-- C2 counterexample: the string key `lang + ":" + title` is not injective
once titles may contain the separator — the distinct pairs `("de", "a:b")` and
`("de:a", "b")` build the same key `"de:a:b"`. -/
theorem cacheKey_not_injective :
    cacheKey "de" "a:b" = cacheKey "de:a" "b" ∧
    ¬("de" = "de:a" ∧ "a:b" = "b") := by
  constructor
  · rfl
  · intro hcontra
    exact absurd hcontra.1 (by decide)

theorem colon_append_inj :
    ∀ (l1 l2 t1 t2 : List Char), ':' ∉ l1 → ':' ∉ l2 →
      l1 ++ ':' :: t1 = l2 ++ ':' :: t2 → l1 = l2 ∧ t1 = t2 := by
  intro l1
  induction l1 with
  | nil =>
    intro l2 t1 t2 _ h2 heq
    cases l2 with
    | nil =>
      simp only [List.nil_append] at heq
      injection heq with _ ht
      exact ⟨rfl, ht⟩
    | cons d l2' =>
      simp only [List.nil_append, List.cons_append] at heq
      injection heq with hd _
      rw [← hd] at h2
      simp at h2
  | cons c l1' ih =>
    intro l2 t1 t2 h1 h2 heq
    cases l2 with
    | nil =>
      simp only [List.cons_append, List.nil_append] at heq
      injection heq with hd _
      rw [hd] at h1
      simp at h1
    | cons d l2' =>
      simp only [List.cons_append] at heq
      injection heq with hcd htail
      have h1' : ':' ∉ l1' := fun hm => h1 (List.mem_cons_of_mem _ hm)
      have h2' : ':' ∉ l2' := fun hm => h2 (List.mem_cons_of_mem _ hm)
      obtain ⟨hl, ht⟩ := ih l2' t1 t2 h1' h2' htail
      exact ⟨by rw [hcd, hl], ht⟩

theorem cacheKey_data (l t : String) :
    (cacheKey l t).data = l.data ++ ':' :: t.data := by
  show (l ++ ":" ++ t).data = _
  rw [String.data_append, String.data_append]
  simp

/-- C2 (amended): key construction is injective across all pairs whose
language component does not contain the separator `':'` — titles may contain
it freely. (Unrestricted injectivity fails; see the counterexample.) -/
theorem cacheKey_inj_of_colon_free_lang (l1 t1 l2 t2 : String)
    (h1 : ':' ∉ l1.data) (h2 : ':' ∉ l2.data)
    (heq : cacheKey l1 t1 = cacheKey l2 t2) : l1 = l2 ∧ t1 = t2 := by
  have hdata : (cacheKey l1 t1).data = (cacheKey l2 t2).data := by rw [heq]
  rw [cacheKey_data, cacheKey_data] at hdata
  obtain ⟨hl, ht⟩ := colon_append_inj l1.data l2.data t1.data t2.data h1 h2 hdata
  exact ⟨String.ext hl, String.ext ht⟩

/-! ## Claim C4 -/

/-- The 3-unit ellipsis marker appended by `getWikipediaSummary`. -/
def ellipsis : List Char := ['.', '.', '.']

/-- Summary truncation (wikr.go lines 176–178):
`if len(summary) > 1000 { summary = summary[:997] + "..." }`.
Go's `len` and slicing count the string's length units; the summary is
modelled as the list of those units. -/
def truncateSummary (s : List Char) : List Char :=
  if s.length > 1000 then s.take 997 ++ ellipsis else s

/-- C4: a fetched summary longer than 1000 units becomes its first 997 units
followed by the 3-unit ellipsis — exactly 1000 units total, ending in `...` —
and a summary of at most 1000 units is returned unchanged. This value is both
what `getWikipediaSummary` returns and what it hands to `setCachedEntry`. -/
theorem truncateSummary_spec (s : List Char) :
    (1000 < s.length →
      truncateSummary s = s.take 997 ++ ellipsis ∧
      (truncateSummary s).length = 1000 ∧
      ellipsis <:+ truncateSummary s) ∧
    (s.length ≤ 1000 → truncateSummary s = s) := by
  constructor
  · intro hlong
    have htr : truncateSummary s = s.take 997 ++ ellipsis := if_pos (by omega)
    refine ⟨htr, ?_, ?_⟩
    · rw [htr, List.length_append, List.length_take]
      simp only [ellipsis, List.length_cons, List.length_nil]
      omega
    · rw [htr]
      exact ⟨s.take 997, rfl⟩
  · intro hshort
    exact if_neg (by omega)

theorem truncateSummary_witness :
    (1000 < (List.replicate 1200 'a').length) ∧
    ((truncateSummary (List.replicate 1200 'a')).length = 1000 ∧
      ellipsis <:+ truncateSummary (List.replicate 1200 'a')) :=
  ⟨by rw [List.length_replicate]; omega,
   ⟨((truncateSummary_spec (List.replicate 1200 'a')).1
       (by rw [List.length_replicate]; omega)).2.1,
    ((truncateSummary_spec (List.replicate 1200 'a')).1
       (by rw [List.length_replicate]; omega)).2.2⟩⟩

/-! ## Claim C8 -/

/-- One line of user input to `chooseResult`, after `strings.TrimSpace` and
`fmt.Sscanf(input, "%d", &index)`: the quit token `"q"`, a line whose leading
token parses as an integer, or a line that parses to no integer at all. -/
inductive UserInput where
  | quit : UserInput
  | number : Int → UserInput
  | noParse : UserInput

/-- The list `chooseResult` displays (wikr.go lines 322–324):
`if len(results) > *maxResults { results = results[:*maxResults] }`. -/
def displayedResults (results : List String) (maxResults : Nat) : List String :=
  if results.length > maxResults then results.take maxResults else results

/-- Outcome of the `chooseResult` input loop on a finite sequence of input
lines: the user quit (`os.Exit(0)`), a title was chosen, or every line so far
was rejected and the loop is still prompting. -/
inductive ChooseOutcome where
  | exited : ChooseOutcome
  | chosen : String → ChooseOutcome
  | pending : ChooseOutcome
deriving DecidableEq, Repr

/-- The read-validate loop of `chooseResult` (wikr.go lines 331–348): `"q"`
exits the program; a parsed index is accepted iff
`index > 0 && index <= len(results)` against the displayed list, returning
`results[index-1]`; anything else prints an error and re-prompts. -/
def chooseLoop (displayed : List String) : List UserInput → ChooseOutcome
  | [] => .pending
  | .quit :: _ => .exited
  | .number n :: rest =>
    if 0 < n ∧ n ≤ (displayed.length : Int) then
      .chosen (displayed.getD (n.toNat - 1) "")
    else chooseLoop displayed rest
  | .noParse :: rest => chooseLoop displayed rest

/-- `chooseResult` (wikr.go lines 321–349): truncate the candidate list for
display, then run the selection loop against the displayed list. -/
def chooseResult (results : List String) (maxResults : Nat)
    (inputs : List UserInput) : ChooseOutcome :=
  chooseLoop (displayedResults results maxResults) inputs

/-- C8: with more candidates than `maxDisplayed`, the displayed list is
exactly the first `maxDisplayed` candidates in original order; an entered
index is accepted iff it lies in `1..maxDisplayed` — an index valid only in
the untruncated list is rejected and the loop re-prompts — and an accepted
index `n` selects the `n`-th candidate of the original order. -/
theorem chooseResult_spec (results : List String) (maxResults : Nat)
    (hlong : maxResults < results.length) :
    displayedResults results maxResults = results.take maxResults ∧
    (displayedResults results maxResults).length = maxResults ∧
    (∀ (n : Int) (rest : List UserInput), ¬(0 < n ∧ n ≤ (maxResults : Int)) →
      chooseResult results maxResults (.number n :: rest)
        = chooseResult results maxResults rest) ∧
    (∀ (n : Int) (rest : List UserInput), 0 < n → n ≤ (maxResults : Int) →
      chooseResult results maxResults (.number n :: rest)
        = .chosen (results.getD (n.toNat - 1) "")) := by
  have hdisp : displayedResults results maxResults = results.take maxResults :=
    if_pos hlong
  have hlen : (displayedResults results maxResults).length = maxResults := by
    rw [hdisp, List.length_take]
    omega
  refine ⟨hdisp, hlen, ?_, ?_⟩
  · intro n rest hrej
    show chooseLoop _ (.number n :: rest) = chooseLoop _ rest
    rw [chooseLoop, hlen, if_neg hrej]
  · intro n rest hpos hle
    show chooseLoop _ (.number n :: rest) = _
    rw [chooseLoop, hlen, if_pos ⟨hpos, hle⟩]
    have hidx : n.toNat - 1 < maxResults := by omega
    rw [hdisp]
    congr 1
    simp only [List.getD]
    rw [List.get?_take hidx]

def eightTitles : List String :=
  ["t1", "t2", "t3", "t4", "t5", "t6", "t7", "t8"]

theorem chooseResult_spec_witness :
    (5 < eightTitles.length) ∧
    chooseResult eightTitles 5 [UserInput.number 6] = ChooseOutcome.pending ∧
    chooseResult eightTitles 5 [UserInput.number 2] = ChooseOutcome.chosen "t2" :=
  ⟨by decide,
   ((chooseResult_spec eightTitles 5 (by decide)).2.2.1 6 [] (by decide)).trans rfl,
   ((chooseResult_spec eightTitles 5 (by decide)).2.2.2 2 [] (by decide)
      (by decide)).trans rfl⟩

theorem cacheKey_inj_witness :
    (':' ∉ "de".data) ∧ ("de" = "de" ∧ "Star Trek: Voyager" = "Star Trek: Voyager") :=
  ⟨by decide,
   cacheKey_inj_of_colon_free_lang "de" "Star Trek: Voyager" "de" "Star Trek: Voyager"
     (by decide) (by decide) rfl⟩

/-! ## Claim C1: remote response parsing -/

/-- Outcome of a Go function body that may return a value, return an `error`
to its caller, or panic (crash) via a failed type assertion. -/
inductive Parsed (α : Type) where
  | ok : α → Parsed α
  | errReturned : Parsed α
  | panicked : Parsed α
deriving DecidableEq

/-- The outcome of an HTTP call as `searchWikipedia` / `getWikipediaSummary`
see it: `http.Get` error, `io.ReadAll` error, or a body that is invalid JSON
or parses to the JSON value `j`. -/
inductive NetResponse where
  | transportError : NetResponse
  | bodyReadError : NetResponse
  | invalidJson : NetResponse
  | json : Json → NetResponse

/-- The title-collection loop of `searchWikipedia` (wikr.go lines 313–316):
`titles[i] = item.(map[string]interface{})["title"].(string)` — each item must
be an object with a string `title`, anything else is a panicking type
assertion. -/
def collectTitles : List Json → Parsed (List String)
  | [] => .ok []
  | .obj itemFields :: rest =>
    match objGet itemFields "title" with
    | some (.str t) =>
      match collectTitles rest with
      | .ok ts => .ok (t :: ts)
      | r => r
    | _ => .panicked
  | _ :: _ => .panicked

/-- `searchWikipedia` (wikr.go lines 294–319) after the HTTP exchange:
transport, read and `json.Unmarshal` failures are returned as errors (a
non-object top level is an `Unmarshal` type error into the map); then
`result["query"].(map[string]interface{})["search"].([]interface{})` and the
per-item title assertions panic whenever the expected structure is absent. -/
def searchWikipedia (resp : NetResponse) : Parsed (List String) :=
  match resp with
  | .transportError => .errReturned
  | .bodyReadError => .errReturned
  | .invalidJson => .errReturned
  | .json (.obj fields) =>
    match objGet fields "query" with
    | some (.obj queryFields) =>
      match objGet queryFields "search" with
      | some (.arr items) => collectTitles items
      | _ => .panicked
    | _ => .panicked
  | .json _ => .errReturned

/-- The extraction step of `getWikipediaSummary` (wikr.go lines 163–173):
`result["extract"].(string)` and
`result["content_urls"].(map[string]interface{})["desktop"].(map[string]interface{})["page"].(string)`
— unchecked type assertions that panic when the shape is absent; only
`json.Unmarshal` failures are returned as errors. -/
def summaryExtract (resp : NetResponse) : Parsed (String × String) :=
  match resp with
  | .transportError => .errReturned
  | .bodyReadError => .errReturned
  | .invalidJson => .errReturned
  | .json (.obj fields) =>
    match objGet fields "extract" with
    | some (.str extract) =>
      match objGet fields "content_urls" with
      | some (.obj cuFields) =>
        match objGet cuFields "desktop" with
        | some (.obj dFields) =>
          match objGet dFields "page" with
          | some (.str page) => .ok (extract, page)
          | _ => .panicked
        | _ => .panicked
      | _ => .panicked
    | _ => .panicked
  | .json _ => .errReturned

/-- C1 (code divergence): a syntactically valid response whose JSON body lacks
the expected structure — the empty object `{}` missing `query` for search and
`extract`/`content_urls` for the summary fetch — makes both operations PANIC
through an unchecked type assertion instead of returning a recoverable
error; only syntactically invalid JSON is returned as an error. -/
theorem malformed_response_panics :
    searchWikipedia (.json (Json.obj [])) = Parsed.panicked ∧
    summaryExtract (.json (Json.obj [])) = Parsed.panicked ∧
    searchWikipedia .invalidJson = Parsed.errReturned ∧
    summaryExtract .invalidJson = Parsed.errReturned :=
  ⟨rfl, rfl, rfl, rfl⟩

/-! ## Claim C9: orchestration in `main` -/

/-- A cache interaction performed during the fetch step, in order. -/
inductive CacheOp where
  | lookupOp : String → CacheOp
  | storeOp : String → CacheOp
deriving DecidableEq

/-- String-level summary truncation as `getWikipediaSummary` performs it on
the fetched extract. -/
def truncateSummaryStr (s : String) : String := ⟨truncateSummary s.data⟩

/-- `getWikipediaSummary` (wikr.go lines 127–188) with file state and network
outcome explicit, recording its cache interactions: look up the cache first
and return the entry on a fresh hit; otherwise perform the HTTP call, return
its errors (or panic on a malformed body), truncate, store and return the
fresh summary. -/
def getWikipediaSummaryRun (disk : FileContent) (lang title : String)
    (now : Int) (net : NetResponse) :
    Parsed (String × String × Bool) × FileContent × List CacheOp :=
  let key := cacheKey lang title
  let cached := (getCachedEntry disk lang title now).1
  if cached.2.2 then (.ok (cached.1, cached.2.1, true), disk, [.lookupOp key])
  else
    match summaryExtract net with
    | .errReturned => (.errReturned, disk, [.lookupOp key])
    | .panicked => (.panicked, disk, [.lookupOp key])
    | .ok (extract, page) =>
      let s := truncateSummaryStr extract
      (.ok (s, page, false), setCachedEntry disk lang title s page now,
       [.lookupOp key, .storeOp key])

/-- Outcome of one invocation of `main` from the search step onward. -/
inductive RunOutcome where
  | searchFailed : RunOutcome
  | searchCrashed : RunOutcome
  | noResults : RunOutcome
  | userQuit : RunOutcome
  | awaitingInput : RunOutcome
  | fetchFailed : RunOutcome
  | fetchCrashed : RunOutcome
  | success : String → String → Bool → RunOutcome
deriving DecidableEq

/-- The tail of `main` (wikr.go lines 260–292): search, abort with "No results
found." on an empty candidate list, auto-select a single candidate or
disambiguate, then fetch the summary — with the file state and the list of
cache interactions made explicit. -/
def mainRun (searchNet : NetResponse) (inputs : List UserInput)
    (maxResults : Nat) (disk : FileContent) (lang : String) (now : Int)
    (summaryNet : NetResponse) : RunOutcome × FileContent × List CacheOp :=
  match searchWikipedia searchNet with
  | .errReturned => (.searchFailed, disk, [])
  | .panicked => (.searchCrashed, disk, [])
  | .ok searchResults =>
    let fetch := fun (title : String) =>
      match getWikipediaSummaryRun disk lang title now summaryNet with
      | (.ok (s, u, cached), disk', ops) => (RunOutcome.success s u cached, disk', ops)
      | (.errReturned, disk', ops) => (RunOutcome.fetchFailed, disk', ops)
      | (.panicked, disk', ops) => (RunOutcome.fetchCrashed, disk', ops)
    match searchResults with
    | [] => (.noResults, disk, [])
    | [title] => fetch title
    | _ :: _ :: _ =>
      match chooseResult searchResults maxResults inputs with
      | .exited => (.userQuit, disk, [])
      | .pending => (.awaitingInput, disk, [])
      | .chosen title => fetch title

/-- C9: whenever the search returns an empty candidate list, the run ends in
the no-results failure, performs no cache lookup and no cache store, and
leaves the persisted cache state unchanged. -/
theorem empty_search_no_cache_interaction (searchNet : NetResponse)
    (inputs : List UserInput) (maxResults : Nat) (disk : FileContent)
    (lang : String) (now : Int) (summaryNet : NetResponse)
    (h : searchWikipedia searchNet = .ok []) :
    mainRun searchNet inputs maxResults disk lang now summaryNet
      = (.noResults, disk, []) := by
  unfold mainRun
  rw [h]

theorem empty_search_witness :
    searchWikipedia (.json (Json.obj [("query", Json.obj [("search", Json.arr [])])]))
      = Parsed.ok [] ∧
    mainRun (.json (Json.obj [("query", Json.obj [("search", Json.arr [])])]))
        [] 5 .readError "de" 0 .transportError
      = (.noResults, FileContent.readError, []) :=
  ⟨rfl,
   empty_search_no_cache_interaction
     (.json (Json.obj [("query", Json.obj [("search", Json.arr [])])]))
     [] 5 .readError "de" 0 .transportError rfl⟩

/-! ## Claim C10: progress-indicator lifecycle -/

/-- An observable event of the fetch operation. Traces are kept newest first:
an animation frame printed by `showLoadingAnimation`, the return of
`wg.Wait()` in `getWikipediaSummary`, the caller's `fmt.Print("\r")`, and the
caller's own return. -/
inductive Event where
  | animFrame : Event
  | waitReturned : Event
  | crPrinted : Event
  | returned : Event
deriving DecidableEq

/-- The foreground instructions of an exit path of `getWikipediaSummary`:
`close(done)`, `wg.Wait()`, `fmt.Print("\r")`, the `setCachedEntry` call of
the success path, and the `return`. -/
inductive FgInstr where
  | closeDone : FgInstr
  | wgWait : FgInstr
  | printCR : FgInstr
  | storeEntry : FgInstr
  | retOp : FgInstr
deriving DecidableEq

/-- Joint state of the foreground (`getWikipediaSummary`) and the background
animation goroutine: remaining foreground instructions, whether the `done`
channel is closed, whether `showLoadingAnimation` has returned (so the
deferred `wg.Done` ran and the `WaitGroup` counter is zero), and the trace of
events emitted so far (newest first). -/
structure ConcState where
  fg : List FgInstr
  doneClosed : Bool
  bgDone : Bool
  trace : List Event
deriving DecidableEq

/-- The exit paths of `getWikipediaSummary` (wikr.go lines 138–187): cache
hit, `http.Get` error, `io.ReadAll` error, `json.Unmarshal` error, and the
successful network fetch. -/
inductive ExitPath where
  | cacheHit : ExitPath
  | transportError : ExitPath
  | readBodyError : ExitPath
  | decodeError : ExitPath
  | fetchSuccess : ExitPath
deriving DecidableEq

/-- The foreground instruction sequence each exit path executes: every path
runs `close(done); wg.Wait(); fmt.Print("\r")` before returning; the success
path additionally stores the fresh entry before its `return`. -/
def fgProgram : ExitPath → List FgInstr
  | .cacheHit => [.closeDone, .wgWait, .printCR, .retOp]
  | .transportError => [.closeDone, .wgWait, .printCR, .retOp]
  | .readBodyError => [.closeDone, .wgWait, .printCR, .retOp]
  | .decodeError => [.closeDone, .wgWait, .printCR, .retOp]
  | .fetchSuccess => [.closeDone, .wgWait, .printCR, .storeEntry, .retOp]

/-- Start of the handoff: the goroutine is running, `done` is open, nothing
has been printed past the animation yet. -/
def initState (p : ExitPath) : ConcState := ⟨fgProgram p, false, false, []⟩

/-- Interleaved small-step semantics of the two threads. The background loop,
while it has not returned, prints a frame when `done` is not closed and
returns (running the deferred `wg.Done`) once `done` is closed — a `select`
with a ready `<-done` case never takes the `default` branch. The foreground
executes its instructions in order; `wg.Wait()` completes only when the
`WaitGroup` counter is zero, i.e. once the background loop has returned. -/
inductive Step : ConcState → ConcState → Prop where
  | bgFrame (fg : List FgInstr) (tr : List Event) :
      Step ⟨fg, false, false, tr⟩ ⟨fg, false, false, .animFrame :: tr⟩
  | bgExit (fg : List FgInstr) (tr : List Event) :
      Step ⟨fg, true, false, tr⟩ ⟨fg, true, true, tr⟩
  | fgClose (r : List FgInstr) (d b : Bool) (tr : List Event) :
      Step ⟨.closeDone :: r, d, b, tr⟩ ⟨r, true, b, tr⟩
  | fgWait (r : List FgInstr) (d : Bool) (tr : List Event) :
      Step ⟨.wgWait :: r, d, true, tr⟩ ⟨r, d, true, .waitReturned :: tr⟩
  | fgPrint (r : List FgInstr) (d b : Bool) (tr : List Event) :
      Step ⟨.printCR :: r, d, b, tr⟩ ⟨r, d, b, .crPrinted :: tr⟩
  | fgStore (r : List FgInstr) (d b : Bool) (tr : List Event) :
      Step ⟨.storeEntry :: r, d, b, tr⟩ ⟨r, d, b, tr⟩
  | fgRet (r : List FgInstr) (d b : Bool) (tr : List Event) :
      Step ⟨.retOp :: r, d, b, tr⟩ ⟨r, d, b, .returned :: tr⟩

/-- States reachable from the start of exit path `p` under any interleaving. -/
def Reachable (p : ExitPath) (s : ConcState) : Prop :=
  Relation.ReflTransGen Step (initState p) s

/-- Some animation frame was printed after `wg.Wait()` returned (traces are
newest first: the frame sits strictly above the wait event). -/
def animAfterWait (tr : List Event) : Prop :=
  ∃ pre suf, tr = pre ++ suf ∧ Event.animFrame ∈ pre ∧ Event.waitReturned ∈ suf

theorem animAfterWait_cons (e : Event) (tr : List Event) :
    animAfterWait (e :: tr) ↔
      (e = Event.animFrame ∧ Event.waitReturned ∈ tr) ∨ animAfterWait tr := by
  constructor
  · rintro ⟨pre, suf, heq, ha, hw⟩
    cases pre with
    | nil => simp at ha
    | cons q pre' =>
      rw [List.cons_append] at heq
      injection heq with hq htr
      rcases List.mem_cons.mp ha with hqa | ha'
      · subst htr
        exact Or.inl ⟨hq.trans hqa.symm, List.mem_append_right pre' hw⟩
      · subst htr
        exact Or.inr ⟨pre', suf, rfl, ha', hw⟩
  · rintro (⟨he, hw⟩ | ⟨pre, suf, heq, ha, hw⟩)
    · exact ⟨[e], tr, rfl, by simp [he], hw⟩
    · exact ⟨e :: pre, suf, by rw [heq, List.cons_append], List.mem_cons_of_mem _ ha, hw⟩

theorem suffix_prog4 (l : List FgInstr)
    (h : l <:+ [FgInstr.closeDone, FgInstr.wgWait, FgInstr.printCR, FgInstr.retOp]) :
    l = [FgInstr.closeDone, FgInstr.wgWait, FgInstr.printCR, FgInstr.retOp] ∨
    l = [FgInstr.wgWait, FgInstr.printCR, FgInstr.retOp] ∨
    l = [FgInstr.printCR, FgInstr.retOp] ∨
    l = [FgInstr.retOp] ∨ l = [] := by
  rcases List.suffix_cons_iff.mp h with h1 | h
  · exact Or.inl h1
  rcases List.suffix_cons_iff.mp h with h1 | h
  · exact Or.inr (Or.inl h1)
  rcases List.suffix_cons_iff.mp h with h1 | h
  · exact Or.inr (Or.inr (Or.inl h1))
  rcases List.suffix_cons_iff.mp h with h1 | h
  · exact Or.inr (Or.inr (Or.inr (Or.inl h1)))
  exact Or.inr (Or.inr (Or.inr (Or.inr (List.suffix_nil.mp h))))

theorem suffix_prog5 (l : List FgInstr)
    (h : l <:+ [FgInstr.closeDone, FgInstr.wgWait, FgInstr.printCR,
                FgInstr.storeEntry, FgInstr.retOp]) :
    l = [FgInstr.closeDone, FgInstr.wgWait, FgInstr.printCR, FgInstr.storeEntry,
         FgInstr.retOp] ∨
    l = [FgInstr.wgWait, FgInstr.printCR, FgInstr.storeEntry, FgInstr.retOp] ∨
    l = [FgInstr.printCR, FgInstr.storeEntry, FgInstr.retOp] ∨
    l = [FgInstr.storeEntry, FgInstr.retOp] ∨
    l = [FgInstr.retOp] ∨ l = [] := by
  rcases List.suffix_cons_iff.mp h with h1 | h
  · exact Or.inl h1
  rcases List.suffix_cons_iff.mp h with h1 | h
  · exact Or.inr (Or.inl h1)
  rcases List.suffix_cons_iff.mp h with h1 | h
  · exact Or.inr (Or.inr (Or.inl h1))
  rcases List.suffix_cons_iff.mp h with h1 | h
  · exact Or.inr (Or.inr (Or.inr (Or.inl h1)))
  rcases List.suffix_cons_iff.mp h with h1 | h
  · exact Or.inr (Or.inr (Or.inr (Or.inr (Or.inl h1))))
  exact Or.inr (Or.inr (Or.inr (Or.inr (Or.inr (List.suffix_nil.mp h)))))

theorem wgWait_not_mem_of_suffix_printCR {p : ExitPath} {r : List FgInstr}
    (h : (FgInstr.printCR :: r) <:+ fgProgram p) :
    FgInstr.wgWait ∉ FgInstr.printCR :: r := by
  cases p
  case fetchSuccess =>
    rcases suffix_prog5 _ h with h1 | h1 | h1 | h1 | h1 | h1 <;> simp_all
  all_goals
    rcases suffix_prog4 _ h with h1 | h1 | h1 | h1 | h1 <;> simp_all

theorem wgWait_not_mem_of_suffix_retOp {p : ExitPath} {r : List FgInstr}
    (h : (FgInstr.retOp :: r) <:+ fgProgram p) :
    FgInstr.wgWait ∉ FgInstr.retOp :: r := by
  cases p
  case fetchSuccess =>
    rcases suffix_prog5 _ h with h1 | h1 | h1 | h1 | h1 | h1 <;> simp_all
  all_goals
    rcases suffix_prog4 _ h with h1 | h1 | h1 | h1 | h1 <;> simp_all

/-- Inductive invariant for the handoff: the remaining foreground program is a
suffix of the path's program; `wg.Wait` is still pending unless the background
loop has returned; every post-wait event in the trace certifies that the
background loop has returned; and no animation frame follows the wait. -/
def ProgressInv (p : ExitPath) (s : ConcState) : Prop :=
  s.fg <:+ fgProgram p
  ∧ (FgInstr.wgWait ∈ s.fg ∨ s.bgDone = true)
  ∧ (Event.waitReturned ∈ s.trace → s.bgDone = true)
  ∧ (Event.crPrinted ∈ s.trace → s.bgDone = true)
  ∧ (Event.returned ∈ s.trace → s.bgDone = true)
  ∧ ¬ animAfterWait s.trace

theorem progressInv_init (p : ExitPath) : ProgressInv p (initState p) := by
  refine ⟨List.suffix_refl _, Or.inl ?_, ?_, ?_, ?_, ?_⟩
  · cases p <;> decide
  · intro h; simp [initState] at h
  · intro h; simp [initState] at h
  · intro h; simp [initState] at h
  · rintro ⟨pre, suf, heq, ha, -⟩
    have : pre = [] := by
      cases pre with
      | nil => rfl
      | cons a l => simp [initState] at heq
    subst this
    simp at ha

theorem progressInv_step {p : ExitPath} {s s' : ConcState}
    (hstep : Step s s') (hinv : ProgressInv p s) : ProgressInv p s' := by
  obtain ⟨hsuf, hwait, hwt, hcr, hret, haaw⟩ := hinv
  cases hstep with
  | bgFrame fg tr =>
    refine ⟨hsuf, hwait, ?_, ?_, ?_, ?_⟩
    · intro hm
      rcases List.mem_cons.mp hm with h | h
      · exact absurd h (by decide)
      · exact hwt h
    · intro hm
      rcases List.mem_cons.mp hm with h | h
      · exact absurd h (by decide)
      · exact hcr h
    · intro hm
      rcases List.mem_cons.mp hm with h | h
      · exact absurd h (by decide)
      · exact hret h
    · rw [animAfterWait_cons]
      rintro (⟨-, hw⟩ | h)
      · exact absurd (hwt hw) (by simp)
      · exact haaw h
  | bgExit fg tr =>
    exact ⟨hsuf, Or.inr rfl, fun _ => rfl, fun _ => rfl, fun _ => rfl, haaw⟩
  | fgClose r d b tr =>
    refine ⟨(List.suffix_cons _ _).trans hsuf, ?_, hwt, hcr, hret, haaw⟩
    rcases hwait with hw | hb
    · rcases List.mem_cons.mp hw with h | h
      · exact absurd h (by decide)
      · exact Or.inl h
    · exact Or.inr hb
  | fgWait r d tr =>
    refine ⟨(List.suffix_cons _ _).trans hsuf, Or.inr rfl, fun _ => rfl,
      fun _ => rfl, fun _ => rfl, ?_⟩
    rw [animAfterWait_cons]
    rintro (⟨he, -⟩ | h)
    · exact absurd he (by decide)
    · exact haaw h
  | fgPrint r d b tr =>
    have hb : b = true := by
      rcases hwait with hw | hb
      · exact absurd hw (wgWait_not_mem_of_suffix_printCR hsuf)
      · exact hb
    subst hb
    refine ⟨(List.suffix_cons _ _).trans hsuf, Or.inr rfl, ?_, fun _ => rfl, ?_, ?_⟩
    · intro hm
      rcases List.mem_cons.mp hm with h | h
      · exact absurd h (by decide)
      · exact hwt h
    · intro hm
      rcases List.mem_cons.mp hm with h | h
      · exact absurd h (by decide)
      · exact hret h
    · rw [animAfterWait_cons]
      rintro (⟨he, -⟩ | h)
      · exact absurd he (by decide)
      · exact haaw h
  | fgStore r d b tr =>
    refine ⟨(List.suffix_cons _ _).trans hsuf, ?_, hwt, hcr, hret, haaw⟩
    rcases hwait with hw | hb
    · rcases List.mem_cons.mp hw with h | h
      · exact absurd h (by decide)
      · exact Or.inl h
    · exact Or.inr hb
  | fgRet r d b tr =>
    have hb : b = true := by
      rcases hwait with hw | hb
      · exact absurd hw (wgWait_not_mem_of_suffix_retOp hsuf)
      · exact hb
    subst hb
    refine ⟨(List.suffix_cons _ _).trans hsuf, Or.inr rfl, ?_, ?_, fun _ => rfl, ?_⟩
    · intro hm
      rcases List.mem_cons.mp hm with h | h
      · exact absurd h (by decide)
      · exact hwt h
    · intro hm
      rcases List.mem_cons.mp hm with h | h
      · exact absurd h (by decide)
      · exact hcr h
    · rw [animAfterWait_cons]
      rintro (⟨he, -⟩ | h)
      · exact absurd he (by decide)
      · exact haaw h

theorem progressInv_reachable {p : ExitPath} {s : ConcState}
    (h : Reachable p s) : ProgressInv p s := by
  induction h with
  | refl => exact progressInv_init p
  | tail _ hstep ih => exact progressInv_step hstep ih

/-- C10: on every exit path of `getWikipediaSummary` — cache hit, transport
failure, body-read failure, JSON-decode failure, and successful fetch — the
foreground signals the indicator to stop and joins it before printing or
returning: every path's program is `close(done); wg.Wait(); fmt.Print("\r")`
followed by its return, and in every state reachable under any interleaving
no animation frame is ever printed after `wg.Wait()` returned, while any
`wg.Wait()` return, caller print, or caller return in the trace certifies
that the background animation loop has already ceased (no background task
outlives the operation). -/
theorem indicator_stopped_on_every_exit (p : ExitPath) (s : ConcState)
    (h : Reachable p s) :
    (∃ rest, fgProgram p
        = FgInstr.closeDone :: FgInstr.wgWait :: FgInstr.printCR :: rest)
    ∧ ¬ animAfterWait s.trace
    ∧ (Event.waitReturned ∈ s.trace → s.bgDone = true)
    ∧ (Event.crPrinted ∈ s.trace → s.bgDone = true)
    ∧ (Event.returned ∈ s.trace → s.bgDone = true) := by
  obtain ⟨-, -, hwt, hcr, hret, haaw⟩ := progressInv_reachable h
  refine ⟨?_, haaw, hwt, hcr, hret⟩
  cases p
  case fetchSuccess => exact ⟨[FgInstr.storeEntry, FgInstr.retOp], rfl⟩
  all_goals exact ⟨[FgInstr.retOp], rfl⟩

theorem indicator_stopped_witness :
    Reachable ExitPath.cacheHit
      ⟨fgProgram ExitPath.cacheHit, false, false, [Event.animFrame]⟩ ∧
    ¬ animAfterWait
      (ConcState.mk (fgProgram ExitPath.cacheHit) false false [Event.animFrame]).trace :=
  ⟨Relation.ReflTransGen.single (Step.bgFrame (fgProgram ExitPath.cacheHit) []),
   (indicator_stopped_on_every_exit ExitPath.cacheHit
      ⟨fgProgram ExitPath.cacheHit, false, false, [Event.animFrame]⟩
      (Relation.ReflTransGen.single
        (Step.bgFrame (fgProgram ExitPath.cacheHit) []))).2.1⟩

end Wikr
